import Mathlib

/-!
Shallow embedding of the llm-council backend orchestration engine.

The repository contains several near-duplicate server variants.  The
definitions below translate the code that the claims are about:

* `callModelWithRetry` — the retry loop of `src/unnamed/part_003`
  (lines 63-172), with the network environment modelled as a function
  from attempt number to the outcome of that attempt (transport error,
  HTTP failure status, or a decoded-content result).
* `runInBatches` — the batch scheduler of `src/server.js` (lines 228-257).
* `councilOrder` / `councilRanking` / `points003` / `percentages003` /
  `council003` — the ranking parse-fallback-validate pipeline, the
  confidence-weighted scoring and the response assembly of
  `src/unnamed/part_003` (lines 179-363).  The result of `JSON.parse`
  on the arbitrator reply is modelled as an oracle value of type
  `Option (Option ParseOutcome)` (`none` = the chairman call returned
  null, `some none` = `JSON.parse` threw, `some (some p)` = parsed).
* `council004` — the length-weighted variant of `src/unnamed/part_004`
  (lines 171-243).
* `percentagesServer` — the totalScore percentage computation of
  `src/server.js` (lines 363-377).

JavaScript numbers are modelled as `ℚ` (all quantities involved are
small and the rounding decisions in the claims are far from any
double-precision boundary); `Math.round` becomes `jsRound`,
`Math.max(0, Math.min(1, x))` becomes `clamp01`, `NaN`-producing
coercions are modelled with `Option`.
-/

/-- JavaScript `Math.round x` = `⌊x + 1/2⌋` (all values in scope are nonnegative). -/
def jsRound (q : ℚ) : ℤ := ⌊q + 1/2⌋

/-- JavaScript `Math.min a b`. -/
def jsMin (a b : ℚ) : ℚ := if a ≤ b then a else b

/-- JavaScript `Math.max a b`. -/
def jsMax (a b : ℚ) : ℚ := if a ≤ b then b else a

/-- JavaScript `Math.max(0, Math.min(1, x))`. -/
def clamp01 (x : ℚ) : ℚ := jsMax 0 (jsMin 1 x)

/-- JavaScript whitespace characters relevant to `String.prototype.trim`. -/
def jsWhitespace (c : Char) : Bool := c == ' ' || c == '\t' || c == '\n' || c == '\r'

/-- JavaScript `s.trim()`: strip whitespace from both ends. -/
def jsTrim (s : String) : String :=
  ⟨(((s.data.dropWhile jsWhitespace).reverse).dropWhile jsWhitespace).reverse⟩

/-- JavaScript `a || d` for a nullable string `a` (empty string is falsy). -/
def jsOrStr (o : Option String) (d : String) : String :=
  match o with
  | some s => if s = "" then d else s
  | none => d

/-! ## RetryingCaller: `callModelWithRetry` of part_003 (lines 63-172) -/

/-- Provider kinds appearing in the `MODELS` registries; `other` is the
`else` branch of the provider dispatch. -/
inductive Provider
  | groq
  | openrouter
  | gemini
  | deepseek
  | other
deriving DecidableEq

/-- `BASE_DELAY[model.provider] || 2000` (part_003 lines 51-56, 69). -/
def baseDelay : Provider → ℕ
  | .groq => 1000
  | .openrouter => 2500
  | .gemini => 2000
  | .deepseek => 2500
  | .other => 2000

/-- Outcome of one `fetch` attempt: the call throws, returns a non-ok
HTTP status, or returns ok with decoded content (`none` models the
adapter decoding to no usable text, i.e. falsy `content`). -/
inductive Outcome
  | network
  | http (status : ℕ)
  | success (content : Option String)

/-- `[429, 500, 502, 503, 504].includes(status)` (part_003 line 139). -/
def retryableStatus (s : ℕ) : Bool := [429, 500, 502, 503, 504].contains s

/-- Result of the retry loop together with the resources it consumed:
how many fetch attempts were made and which backoff delays were slept
(the fixed 800 ms post-success cooldown is not a backoff sleep). -/
structure RetryResult where
  result : Option String
  attemptsUsed : ℕ
  backoffs : List ℕ
deriving DecidableEq

/-- The `while (attempt <= maxAttempts)` loop of part_003 lines 71-169.
`remaining` is `maxAttempts - attempt + 1`; `attempt` numbers the
current attempt (used to consult the environment); `delay` is the
current backoff delay.  A retry is allowed only while
`attempt < maxAttempts`, i.e. `1 ≤ remaining - 1`; the delay update is
`delay = Math.min(delay * 2, 20000)` (lines 141, 166). -/
def retryGo (outcomes : ℕ → Outcome) : ℕ → ℕ → ℕ → RetryResult
  | 0, _, _ => ⟨none, 0, []⟩
  | remaining + 1, attempt, delay =>
    match outcomes attempt with
    | .success none => ⟨none, 1, []⟩
    | .success (some s) => ⟨some s, 1, []⟩
    | .http s =>
      if retryableStatus s = true ∧ 1 ≤ remaining then
        let r := retryGo outcomes remaining (attempt + 1) (min (2 * delay) 20000)
        ⟨r.result, r.attemptsUsed + 1, delay :: r.backoffs⟩
      else ⟨none, 1, []⟩
    | .network =>
      if 1 ≤ remaining then
        let r := retryGo outcomes remaining (attempt + 1) (min (2 * delay) 20000)
        ⟨r.result, r.attemptsUsed + 1, delay :: r.backoffs⟩
      else ⟨none, 1, []⟩

/-- `callModelWithRetry` (part_003 lines 63-172): an unknown provider
returns null before any fetch; otherwise the loop starts at attempt 1
with the provider base delay. -/
def callModelWithRetry (p : Provider) (outcomes : ℕ → Outcome) (maxAttempts : ℕ) : RetryResult :=
  if p = .other then ⟨none, 0, []⟩ else retryGo outcomes maxAttempts 1 (baseDelay p)

theorem retryGo_bounds (outcomes : ℕ → Outcome) (r : ℕ) :
    ∀ a d : ℕ, d ≤ 20000 →
      (retryGo outcomes r a d).attemptsUsed ≤ r ∧
      List.Sorted (· ≤ ·) (retryGo outcomes r a d).backoffs ∧
      (∀ x ∈ (retryGo outcomes r a d).backoffs, d ≤ x ∧ x ≤ 20000) ∧
      ((retryGo outcomes r a d).backoffs = [] ∨
        (retryGo outcomes r a d).backoffs.head? = some d) := by
  induction r with
  | zero =>
    intro a d _
    simp [retryGo]
  | succ r ih =>
    intro a d hd
    have hmin : min (2 * d) 20000 ≤ 20000 := Nat.min_le_right _ _
    have hdle : d ≤ min (2 * d) 20000 := by
      refine Nat.le_min.mpr ⟨by omega, hd⟩
    cases houtcome : outcomes a with
    | success c =>
      cases c <;> simp [retryGo, houtcome]
    | http s =>
      by_cases hc : retryableStatus s = true ∧ 1 ≤ r
      · have ihr := ih (a + 1) (min (2 * d) 20000) hmin
        simp only [retryGo, houtcome, if_pos hc]
        refine ⟨by omega, ?_, ?_, ?_⟩
        · exact List.sorted_cons.mpr ⟨fun b hb => le_trans hdle (ihr.2.2.1 b hb).1, ihr.2.1⟩
        · intro x hx
          rcases List.mem_cons.mp hx with hx | hx
          · exact ⟨le_of_eq hx.symm, hx ▸ hd⟩
          · exact ⟨le_trans hdle (ihr.2.2.1 x hx).1, (ihr.2.2.1 x hx).2⟩
        · right; rfl
      · simp [retryGo, houtcome, if_neg hc]
    | network =>
      by_cases hc : 1 ≤ r
      · have ihr := ih (a + 1) (min (2 * d) 20000) hmin
        simp only [retryGo, houtcome, if_pos hc]
        refine ⟨by omega, ?_, ?_, ?_⟩
        · exact List.sorted_cons.mpr ⟨fun b hb => le_trans hdle (ihr.2.2.1 b hb).1, ihr.2.1⟩
        · intro x hx
          rcases List.mem_cons.mp hx with hx | hx
          · exact ⟨le_of_eq hx.symm, hx ▸ hd⟩
          · exact ⟨le_trans hdle (ihr.2.2.1 x hx).1, (ihr.2.2.1 x hx).2⟩
        · right; rfl
      · simp [retryGo, houtcome, if_neg hc]

/-- C5: for every member and every maxAttempts ≥ 1, the retrying caller
performs at most `maxAttempts` fetch attempts, and the sequence of
backoff delays it sleeps is non-decreasing, starts at the member's
provider-specific base delay (when any backoff happens at all), and
never exceeds the 20000 ms ceiling. -/
theorem callModelWithRetry_backoff_bounded (p : Provider) (outcomes : ℕ → Outcome)
    (maxAttempts : ℕ) (_hmax : 1 ≤ maxAttempts) :
    (callModelWithRetry p outcomes maxAttempts).attemptsUsed ≤ maxAttempts ∧
    List.Sorted (· ≤ ·) (callModelWithRetry p outcomes maxAttempts).backoffs ∧
    ((callModelWithRetry p outcomes maxAttempts).backoffs = [] ∨
      (callModelWithRetry p outcomes maxAttempts).backoffs.head? = some (baseDelay p)) ∧
    (∀ x ∈ (callModelWithRetry p outcomes maxAttempts).backoffs, x ≤ 20000) := by
  by_cases hp : p = .other
  · subst hp
    simp [callModelWithRetry]
  · have hbase : baseDelay p ≤ 20000 := by cases p <;> simp [baseDelay]
    have h := retryGo_bounds outcomes maxAttempts 1 (baseDelay p) hbase
    simp only [callModelWithRetry, if_neg hp]
    exact ⟨h.1, h.2.1, h.2.2.2, fun x hx => (h.2.2.1 x hx).2⟩

/-- C5 witness: a groq member whose every attempt is a 429 under
maxAttempts = 3 makes exactly 3 attempts and sleeps backoffs 1000 then
2000 ms. -/
theorem callModelWithRetry_backoff_bounded_witness :
    (callModelWithRetry Provider.groq (fun _ => Outcome.http 429) 3).attemptsUsed ≤ 3 ∧
    List.Sorted (· ≤ ·) (callModelWithRetry Provider.groq (fun _ => Outcome.http 429) 3).backoffs := by
  have h := callModelWithRetry_backoff_bounded Provider.groq (fun _ => Outcome.http 429) 3
    (by omega)
  exact ⟨h.1, h.2.1⟩

/-- C6: the retrying caller is a total function into `Option String`
(text or null, never an exception); on an HTTP failure status outside
{429, 500, 502, 503, 504} at the first attempt it returns null with
exactly that one attempt and no backoff sleep, and on an ok response
whose decode yields no usable text it likewise returns null without
retrying. -/
theorem callModelWithRetry_nonretryable_null (p : Provider) (outcomes : ℕ → Outcome)
    (maxAttempts s : ℕ) (hp : p ≠ .other) (_hmax : 1 ≤ maxAttempts) :
    ((callModelWithRetry p outcomes maxAttempts).result = none ∨
      ∃ t : String, (callModelWithRetry p outcomes maxAttempts).result = some t) ∧
    (∀ (r a d s2 : ℕ), outcomes a = .http s2 → retryableStatus s2 = false →
      retryGo outcomes (r + 1) a d = ⟨none, 1, []⟩) ∧
    (∀ (r a d : ℕ), outcomes a = .success none →
      retryGo outcomes (r + 1) a d = ⟨none, 1, []⟩) ∧
    (outcomes 1 = .http s → retryableStatus s = false →
      callModelWithRetry p outcomes maxAttempts = ⟨none, 1, []⟩) ∧
    (outcomes 1 = .success none →
      callModelWithRetry p outcomes maxAttempts = ⟨none, 1, []⟩) := by
  obtain ⟨r0, rfl⟩ : ∃ r0, maxAttempts = r0 + 1 := ⟨maxAttempts - 1, by omega⟩
  have hgenhttp : ∀ (r a d s2 : ℕ), outcomes a = .http s2 → retryableStatus s2 = false →
      retryGo outcomes (r + 1) a d = ⟨none, 1, []⟩ := by
    intro r a d s2 h1 hs2
    have hcond : ¬ (retryableStatus s2 = true ∧ 1 ≤ r) := by
      intro hcon
      rw [hs2] at hcon
      exact absurd hcon.1 (by simp)
    simp [retryGo, h1, if_neg hcond]
  have hgendec : ∀ (r a d : ℕ), outcomes a = .success none →
      retryGo outcomes (r + 1) a d = ⟨none, 1, []⟩ := by
    intro r a d h1
    simp [retryGo, h1]
  refine ⟨?_, hgenhttp, hgendec, ?_, ?_⟩
  · cases hres : (callModelWithRetry p outcomes (r0 + 1)).result with
    | none => exact Or.inl rfl
    | some t => exact Or.inr ⟨t, rfl⟩
  · intro h1 hs
    simp only [callModelWithRetry, if_neg hp]
    exact hgenhttp r0 1 (baseDelay p) s h1 hs
  · intro h1
    simp only [callModelWithRetry, if_neg hp]
    exact hgendec r0 1 (baseDelay p) h1

/-- C6 witness: a groq member answered by HTTP 404 on attempt 1 returns
null after exactly one attempt with no backoff. -/
theorem callModelWithRetry_nonretryable_null_witness :
    callModelWithRetry Provider.groq (fun _ => Outcome.http 404) 3 = ⟨none, 1, []⟩ :=
  (callModelWithRetry_nonretryable_null Provider.groq (fun _ => Outcome.http 404) 3 404
    (by simp) (by omega)).2.2.2.1 rfl (by decide)

/-! ## BatchScheduler: `runInBatches` of src/server.js (lines 228-257) -/

/-- The value written into `results[i]` for one worker: the worker's
resolved value, or `none` when the worker's promise rejected
(`.catch(() => { results[...] = null; })`).  A worker that resolves may
itself resolve to null, hence `β` is instantiated at `Option String`
when modelling `callModel`. -/
def slotOf {α β : Type} (w : α → ℕ → Except Unit β) (a : α) (i : ℕ) : Option β :=
  match w a i with
  | .ok b => some b
  | .error _ => none

/-- One wave: `batch.map((item, localIdx) => fn(item, batchIndices[localIdx]) ...)`;
each worker writes exactly its own result slot, so the wave is the list
of slot values in input order starting from global index `i`. -/
def slotsFrom {α β : Type} (w : α → ℕ → Except Unit β) : ℕ → List α → List (Option β)
  | _, [] => []
  | i, a :: rest => slotOf w a i :: slotsFrom w (i + 1) rest

/-- The `while (index < items.length)` loop of `runInBatches`: take a
wave of at most `batchSize` items, run it, then continue after the wave.
`fuel` bounds the number of loop iterations; with `batchSize ≥ 1` a fuel
of `items.length` is always sufficient (with `batchSize = 0` the
JavaScript loop would never terminate). -/
def runInBatchesGo {α β : Type} (w : α → ℕ → Except Unit β) (batchSize : ℕ) :
    ℕ → ℕ → List α → List (Option β)
  | _, _, [] => []
  | 0, _, _ :: _ => []
  | fuel + 1, idx, a :: rest =>
    slotsFrom w idx ((a :: rest).take batchSize) ++
      runInBatchesGo w batchSize fuel (idx + min batchSize (a :: rest).length)
        ((a :: rest).drop batchSize)

/-- `runInBatches(items, batchSize, fn)` of src/server.js lines 228-257. -/
def runInBatches {α β : Type} (items : List α) (batchSize : ℕ)
    (w : α → ℕ → Except Unit β) : List (Option β) :=
  runInBatchesGo w batchSize items.length 0 items

theorem slotsFrom_append {α β : Type} (w : α → ℕ → Except Unit β) :
    ∀ (l1 l2 : List α) (i : ℕ),
      slotsFrom w i (l1 ++ l2) = slotsFrom w i l1 ++ slotsFrom w (i + l1.length) l2 := by
  intro l1
  induction l1 with
  | nil => intro l2 i; simp [slotsFrom]
  | cons a rest ih =>
    intro l2 i
    simp only [List.cons_append, slotsFrom, List.append_eq, ih, List.length_cons]
    have harith : i + 1 + rest.length = i + (rest.length + 1) := by omega
    rw [harith]

theorem slotsFrom_length {α β : Type} (w : α → ℕ → Except Unit β) :
    ∀ (l : List α) (i : ℕ), (slotsFrom w i l).length = l.length := by
  intro l
  induction l with
  | nil => intro i; rfl
  | cons a rest ih => intro i; simp [slotsFrom, ih]

theorem slotsFrom_get? {α β : Type} (w : α → ℕ → Except Unit β) :
    ∀ (l : List α) (i j : ℕ) (a : α), l.get? j = some a →
      (slotsFrom w i l).get? j = some (slotOf w a (i + j)) := by
  intro l
  induction l with
  | nil => intro i j a h; simp at h
  | cons x rest ih =>
    intro i j a h
    cases j with
    | zero =>
      simp only [List.get?] at h
      cases h
      simp [slotsFrom]
    | succ j =>
      simp only [List.get?] at h
      have := ih (i + 1) j a h
      simpa [slotsFrom, Nat.add_assoc, Nat.add_comm 1 j] using this

theorem runInBatchesGo_eq {α β : Type} (w : α → ℕ → Except Unit β) (batchSize : ℕ)
    (hbs : 1 ≤ batchSize) :
    ∀ (fuel : ℕ) (idx : ℕ) (l : List α), l.length ≤ fuel →
      runInBatchesGo w batchSize fuel idx l = slotsFrom w idx l := by
  intro fuel
  induction fuel with
  | zero =>
    intro idx l hl
    cases l with
    | nil => rfl
    | cons a rest => simp at hl
  | succ f ih =>
    intro idx l hl
    cases l with
    | nil => rfl
    | cons a rest =>
      have hdrop : ((a :: rest).drop batchSize).length ≤ f := by
        simp only [List.length_drop, List.length_cons]
        simp only [List.length_cons] at hl
        omega
      have htake : min batchSize (a :: rest).length = ((a :: rest).take batchSize).length := by
        simp [List.length_take, Nat.min_comm]
      calc runInBatchesGo w batchSize (f + 1) idx (a :: rest)
          = slotsFrom w idx ((a :: rest).take batchSize) ++
              runInBatchesGo w batchSize f (idx + min batchSize (a :: rest).length)
                ((a :: rest).drop batchSize) := rfl
        _ = slotsFrom w idx ((a :: rest).take batchSize) ++
              slotsFrom w (idx + ((a :: rest).take batchSize).length)
                ((a :: rest).drop batchSize) := by rw [ih _ _ hdrop, htake]
        _ = slotsFrom w idx ((a :: rest).take batchSize ++ (a :: rest).drop batchSize) :=
              (slotsFrom_append w _ _ idx).symm
        _ = slotsFrom w idx (a :: rest) := by rw [List.take_append_drop]

/-- Answer record of the src/server.js collection phase. -/
structure AnswerS where
  model : String
  answer : String
deriving DecidableEq

/-- The answers collection of src/server.js lines 282-290: walk
`firstResults` in index order and keep `{ model: MODELS[idx].label,
answer: ans.trim() }` for every slot holding a nonempty-after-trim
string. -/
def collectAnswers (labels : List String) (results : List (Option String)) : List AnswerS :=
  (labels.zip results).filterMap (fun p =>
    match p.2 with
    | some s => if jsTrim s = "" then none else some ⟨p.1, jsTrim s⟩
    | none => none)

theorem collectAnswers_models_sublist :
    ∀ (labels : List String) (results : List (Option String)),
      ((collectAnswers labels results).map (fun a => a.model)).Sublist labels := by
  intro labels
  induction labels with
  | nil => intro results; simp [collectAnswers]
  | cons l ls ih =>
    intro results
    cases results with
    | nil => simp [collectAnswers]
    | cons r rs =>
      cases r with
      | none =>
        simpa [collectAnswers] using List.Sublist.cons l (ih rs)
      | some s =>
        by_cases hs : jsTrim s = ""
        · simpa [collectAnswers, hs] using List.Sublist.cons l (ih rs)
        · simpa [collectAnswers, hs] using List.Sublist.cons₂ l (ih rs)

/-- C4: for every items list, concurrency width ≥ 1 and worker, the
batch scheduler returns a results array of the same length as `items`
in which slot `i` holds exactly the worker's result for `items[i]`
(null when that worker rejected), with no slot left unset and no single
failure aborting the batch; consequently the answers collected from the
result slots list contributing members in original roster order
(`modelsUsed` is a sublist of the roster labels in roster order). -/
theorem runInBatches_spec {α β : Type} (items : List α) (batchSize : ℕ)
    (w : α → ℕ → Except Unit β) (labels : List String) (results : List (Option String))
    (hbs : 1 ≤ batchSize) :
    (runInBatches items batchSize w).length = items.length ∧
    (∀ (i : ℕ) (a : α), items.get? i = some a →
      (runInBatches items batchSize w).get? i = some (slotOf w a i)) ∧
    ((collectAnswers labels results).map (fun a => a.model)).Sublist labels := by
  have hmain : runInBatches items batchSize w = slotsFrom w 0 items :=
    runInBatchesGo_eq w batchSize hbs items.length 0 items le_rfl
  refine ⟨?_, ?_, collectAnswers_models_sublist labels results⟩
  · rw [hmain]; exact slotsFrom_length w items 0
  · intro i a h
    rw [hmain]
    simpa using slotsFrom_get? w items 0 i a h

/-- C4 witness: three items with width 2, where the middle worker
rejects, give a full-length result array with the rejection recorded as
null in its own slot, and the collection keeps roster order. -/
theorem runInBatches_spec_witness :
    (runInBatches [10, 20, 30] 2
      (fun a i => if a = 20 then Except.error () else Except.ok (a + i))).length = 3 ∧
    (runInBatches [10, 20, 30] 2
      (fun a i => if a = 20 then Except.error () else Except.ok (a + i))).get? 1 =
      some (slotOf (fun a i => if a = 20 then Except.error () else Except.ok (a + i)) 20 1) ∧
    ((collectAnswers ["m1", "m2"] [some "hi", none]).map (fun a => a.model)).Sublist
      ["m1", "m2"] := by
  have h := runInBatches_spec [10, 20, 30] 2
    (fun a i => if a = 20 then Except.error () else Except.ok (a + i))
    ["m1", "m2"] [some "hi", none] (by omega)
  exact ⟨h.1, h.2.1 1 20 rfl, h.2.2⟩

/-! ## Arbitrator ranking parse, fallback and validation (part_003 lines 217-284) -/

/-- Result of a successful `JSON.parse` on the extracted span of the
arbitrator reply.  `ranking = some l` means `parsed.ranking` was an
array, with each entry already passed through `parseInt(v, 10)`
(`none` entry = `NaN`); `confidence = some l` means `parsed.confidence`
was an array, each entry being `Number(v)` (`none` = `NaN`);
`reason = some s` means `parsed.reason` was a string. -/
structure ParseOutcome where
  ranking : Option (List (Option ℤ))
  confidence : Option (List (Option ℚ))
  reason : Option String

/-- The `rankingIndices` value right after the parse block (part_003
lines 217, 253-255): empty when the chairman returned null
(outer `none`), when `JSON.parse` threw (`some none`), or when
`parsed.ranking` was not an array. -/
def parsedIdx : Option (Option ParseOutcome) → List (Option ℤ)
  | some (some p) =>
    match p.ranking with
    | some l => l
    | none => []
  | _ => []

/-- Per-entry confidence coercion (part_003 lines 257-261):
`Number(v)` yielding `NaN` defaults to 1, otherwise the value is
clamped into [0,1]. -/
def coerceConf (v : Option ℚ) : ℚ :=
  match v with
  | none => 1
  | some x => clamp01 x

/-- The `confByRank` value right after the parse block (lines 218, 256-262). -/
def parsedConf : Option (Option ParseOutcome) → List ℚ
  | some (some p) =>
    match p.confidence with
    | some l => l.map coerceConf
    | none => []
  | _ => []

/-- The `rankingReason` value right after the parse block (lines 219,
263-265): the trimmed parsed reason when it is a string with nonempty
trim, else the initial "No reason parsed.". -/
def parsedReason : Option (Option ParseOutcome) → String
  | some (some p) =>
    match p.reason with
    | some s => if jsTrim s = "" then "No reason parsed." else jsTrim s
    | none => "No reason parsed."
  | _ => "No reason parsed."

/-- `Array.from({ length: n }, (_, i) => i + 1)`: the identity ordering
`[1, 2, ..., n]` (entries wrapped in `some` since parsed ranking
entries live in `Option ℤ`, `none` standing for `NaN`). -/
def idOrder (n : ℕ) : List (Option ℤ) := (List.range n).map (fun i => some (↑i + 1 : ℤ))

/-- The permutation validation of part_003 lines 279-282: build the set
of expected values 1..n and the set of received values, and demand
equal set sizes (JavaScript `Set` collapses duplicates, and all `NaN`s
into one element — matched here by `dedup` over `Option ℤ`) plus every
expected value present. -/
def isPermCheck (n : ℕ) (got : List (Option ℤ)) : Bool :=
  decide ((idOrder n).dedup.length = got.dedup.length ∧ ∀ v ∈ idOrder n, v ∈ got)

/-- The order actually used downstream (part_003 lines 271-284): first
the length fallback (`!rankingIndices.length || rankingIndices.length
!== n` replaces the list by the identity ordering), then the
permutation check replaces a non-permutation by the identity ordering. -/
def councilOrder (n : ℕ) (parsed : List (Option ℤ)) : List (Option ℤ) :=
  let r1 := if parsed.length = 0 ∨ parsed.length ≠ n then idOrder n else parsed
  if isPermCheck n r1 then r1 else idOrder n

/-- The confidence vector actually used downstream (lines 275-277). -/
def councilConf (n : ℕ) (raw : Option (Option ParseOutcome)) : List ℚ :=
  if (parsedConf raw).length = 0 ∨ (parsedConf raw).length ≠ n then List.replicate n 1
  else parsedConf raw

/-- The full RankingResult `(order, perPositionConfidence, reason)`
used downstream of the parse/fallback/validation block. -/
def councilRanking (n : ℕ) (raw : Option (Option ParseOutcome)) :
    List (Option ℤ) × List ℚ × String :=
  (councilOrder n (parsedIdx raw), councilConf n raw, parsedReason raw)

/-! ## ConfidenceScorer (part_003 lines 286-319) -/

/-- `pointsPerAnswer` (lines 287-302): for 1-based answer number
`aIdx + 1`, `rankPos = rankingIndices.indexOf(answerNumber)`; a missing
answer keeps score 0 (`indexOf = -1` is modelled by `indexOf = length`);
otherwise `basePoints = n - rankPos` times the re-clamped confidence at
that rank (`confByRank[rankPos] ?? 1` is `getD`). -/
def points003 (n : ℕ) (order : List (Option ℤ)) (conf : List ℚ) : List ℚ :=
  (List.range n).map (fun aIdx =>
    let p := order.indexOf (some ((aIdx : ℤ) + 1))
    if p < order.length then ((n : ℚ) - (p : ℚ)) * clamp01 (conf.getD p 1) else 0)

/-- `avgConfPerAnswer` (lines 288-301). -/
def avgConf003 (n : ℕ) (order : List (Option ℤ)) (conf : List ℚ) : List ℚ :=
  (List.range n).map (fun aIdx =>
    let p := order.indexOf (some ((aIdx : ℤ) + 1))
    if p < order.length then clamp01 (conf.getD p 1) else 0)

/-- `maxPoints = pointsPerAnswer.reduce((m, v) => (v > m ? v : m), 0)` (line 304). -/
def maxPoints (l : List ℚ) : ℚ := l.foldl (fun m v => if v > m then v else m) 0

/-- `percentages` (lines 305-308): 0 whenever `maxPoints <= 0`, else
`Math.round((v / maxPoints) * 100)`. -/
def percentages003 (l : List ℚ) : List ℤ :=
  l.map (fun v => if maxPoints l ≤ 0 then 0 else jsRound (v / maxPoints l * 100))

/-- The argmax fallback for `bestIndex` (lines 314-318): first index of
the strictly greatest score. -/
def argmaxIdx (l : List ℚ) : ℕ :=
  (List.range l.length).foldl (fun idx i => if l.getD i 0 > l.getD idx 0 then i else idx) 0

theorem idOrder_length (n : ℕ) : (idOrder n).length = n := by
  unfold idOrder
  rw [List.length_map, List.length_range]

theorem idOrder_nodup (n : ℕ) : (idOrder n).Nodup := by
  unfold idOrder
  refine List.Nodup.map ?_ (List.nodup_range n)
  intro a b h
  simpa using h

theorem idOrder_dedup (n : ℕ) : (idOrder n).dedup = idOrder n :=
  List.dedup_eq_self.mpr (idOrder_nodup n)

theorem mem_idOrder {n : ℕ} {x : Option ℤ} :
    x ∈ idOrder n ↔ ∃ k : ℤ, x = some k ∧ 1 ≤ k ∧ k ≤ n := by
  unfold idOrder
  rw [List.mem_map]
  constructor
  · rintro ⟨i, hi, rfl⟩
    have hin : i < n := List.mem_range.mp hi
    refine ⟨(i : ℤ) + 1, rfl, by omega, ?_⟩
    have hcast : (i : ℤ) < (n : ℤ) := by exact_mod_cast hin
    omega
  · rintro ⟨k, rfl, hk1, hkn⟩
    refine ⟨(k - 1).toNat, List.mem_range.mpr ?_, ?_⟩
    · omega
    · congr 1
      omega

theorem isPermCheck_true_iff (n : ℕ) (got : List (Option ℤ)) :
    isPermCheck n got = true ↔
      ((idOrder n).dedup.length = got.dedup.length ∧ ∀ v ∈ idOrder n, v ∈ got) := by
  simp [isPermCheck]

theorem isPermCheck_idOrder (n : ℕ) : isPermCheck n (idOrder n) = true := by
  rw [isPermCheck_true_iff]
  exact ⟨rfl, fun v hv => hv⟩

/-- The sequential length-fallback-then-set-check of part_003 collapses
to: keep the parsed ordering exactly when it is a nonempty list of
length n passing the permutation check, else use the identity ordering. -/
theorem councilOrder_eq (n : ℕ) (l : List (Option ℤ)) :
    councilOrder n l =
      if l.length = n ∧ l ≠ [] ∧ isPermCheck n l = true then l else idOrder n := by
  unfold councilOrder
  by_cases h1 : l.length = 0 ∨ l.length ≠ n
  · have hrhs : ¬ (l.length = n ∧ l ≠ [] ∧ isPermCheck n l = true) := by
      rcases h1 with h | h
      · exact fun hc => hc.2.1 (List.length_eq_zero.mp h)
      · exact fun hc => h hc.1
    simp only [if_pos h1, isPermCheck_idOrder, if_pos, if_neg hrhs]
  · push_neg at h1
    obtain ⟨hne, hlen⟩ := h1
    have hnil : l ≠ [] := fun hc => hne (by rw [hc]; rfl)
    simp only [if_neg (show ¬ (l.length = 0 ∨ l.length ≠ n) from by tauto)]
    by_cases hp : isPermCheck n l = true
    · rw [if_pos hp, if_pos ⟨hlen, hnil, hp⟩]
    · rw [if_neg (by simp [hp]), if_neg (by tauto)]

/-- Pigeonhole direction of the set-based validation: a length-n list
passing the check consists exactly of entries `some k` with 1 ≤ k ≤ n. -/
theorem mem_of_permCheck (n : ℕ) (l : List (Option ℤ))
    (hc : isPermCheck n l = true) : ∀ x ∈ l, ∃ k : ℤ, x = some k ∧ 1 ≤ k ∧ k ≤ n := by
  rw [isPermCheck_true_iff] at hc
  obtain ⟨hsize, hmem⟩ := hc
  have hsize2 : l.dedup.length = n := by
    rw [← hsize, idOrder_dedup, idOrder_length]
  have hfin : (idOrder n).toFinset ⊆ l.toFinset := by
    intro x hx
    exact List.mem_toFinset.mpr (hmem x (List.mem_toFinset.mp hx))
  have hcard : l.toFinset.card ≤ (idOrder n).toFinset.card := by
    rw [List.card_toFinset, List.card_toFinset, hsize2, idOrder_dedup, idOrder_length]
  have heq : (idOrder n).toFinset = l.toFinset := Finset.eq_of_subset_of_card_le hfin hcard
  intro x hx
  have hxid : x ∈ idOrder n := by
    have : x ∈ l.toFinset := List.mem_toFinset.mpr hx
    rw [← heq] at this
    exact List.mem_toFinset.mp this
  exact mem_idOrder.mp hxid

/-- Concrete invalid arbitrator reply: ranking `[1, 1]` (duplicate) with
confidences `[0.5, 0.5]` and a parsed reason, for N = 2 answers. -/
def rawDup : Option (Option ParseOutcome) :=
  some (some ⟨some [some 1, some 1], some [some (1/2), some (1/2)], some "duplicate ranks"⟩)

/-- C1 counterexample: for N = 2 and a parsed ordering `[1, 1]` that is
not a permutation of 1..2, the order falls back to `[1, 2]` but the
RankingResult used downstream is NOT the canonical fallback: the
confidence entries stay `0.5` (not 1.0) and the reason stays the parsed
reason (not "fallback"). -/
theorem councilRanking_fallback_counterexample :
    isPermCheck 2 (parsedIdx rawDup) = false ∧
    (councilRanking 2 rawDup).1 = idOrder 2 ∧
    (councilRanking 2 rawDup).2.1 = [1/2, 1/2] ∧
    (councilRanking 2 rawDup).2.1 ≠ [1, 1] ∧
    (councilRanking 2 rawDup).2.2 = "duplicate ranks" ∧
    (councilRanking 2 rawDup).2.2 ≠ "fallback" := by
  apply of_decide_eq_true
  with_unfolding_all rfl

/-- C1 amended: for every answer count N and parse outcome, the ORDER
used downstream is the identity `[1..N]` whenever the parsed ordering
is not a nonempty length-N list passing the permutation check (wrong
length, out-of-range or duplicate entries, NaN entries, or a parse
failure), and is in all cases a length-N list passing the check; the
confidence vector is (independently) replaced by N entries of 1.0
exactly when its parsed length is 0 or differs from N; and the reason
is the trimmed parsed reason when nonempty, else "No reason parsed." —
the three fields are never jointly reset to a canonical fallback with
reason "fallback". -/
theorem councilRanking_fallback (n : ℕ) (raw : Option (Option ParseOutcome)) :
    (isPermCheck n ((councilRanking n raw).1) = true ∧
      ((councilRanking n raw).1).length = n) ∧
    (¬ ((parsedIdx raw).length = n ∧ parsedIdx raw ≠ [] ∧
          isPermCheck n (parsedIdx raw) = true) →
      (councilRanking n raw).1 = idOrder n) ∧
    (((parsedIdx raw).length = n ∧ parsedIdx raw ≠ [] ∧
          isPermCheck n (parsedIdx raw) = true) →
      (councilRanking n raw).1 = parsedIdx raw) ∧
    ((parsedConf raw).length = n → 0 < n →
      (councilRanking n raw).2.1 = parsedConf raw) ∧
    ((parsedConf raw).length ≠ n ∨ n = 0 →
      (councilRanking n raw).2.1 = List.replicate n 1) ∧
    (councilRanking n raw).2.2 = parsedReason raw := by
  have horder : (councilRanking n raw).1 = councilOrder n (parsedIdx raw) := rfl
  have hcond := councilOrder_eq n (parsedIdx raw)
  refine ⟨?_, ?_, ?_, ?_, ?_, rfl⟩
  · by_cases hg : (parsedIdx raw).length = n ∧ parsedIdx raw ≠ [] ∧
        isPermCheck n (parsedIdx raw) = true
    · rw [horder, hcond, if_pos hg]
      exact ⟨hg.2.2, hg.1⟩
    · rw [horder, hcond, if_neg hg]
      exact ⟨isPermCheck_idOrder n, idOrder_length n⟩
  · intro hg
    rw [horder, hcond, if_neg hg]
  · intro hg
    rw [horder, hcond, if_pos hg]
  · intro hlen hn
    have : ¬ ((parsedConf raw).length = 0 ∨ (parsedConf raw).length ≠ n) := by omega
    simp only [councilRanking, councilConf, if_neg this]
  · intro h
    have : (parsedConf raw).length = 0 ∨ (parsedConf raw).length ≠ n := by
      rcases h with h | h
      · exact Or.inr h
      · subst h
        rcases Nat.eq_zero_or_pos (parsedConf raw).length with h0 | h0
        · exact Or.inl h0
        · exact Or.inr (by omega)
    simp only [councilRanking, councilConf, if_pos this]

/-- C1 amended witness: a thrown JSON parse (N = 2) yields the identity
order, which passes the permutation check. -/
theorem councilRanking_fallback_witness :
    (councilRanking 2 (some none)).1 = idOrder 2 ∧
    isPermCheck 2 ((councilRanking 2 (some none)).1) = true ∧
    (councilRanking 2 (some none)).2.1 = List.replicate 2 1 :=
  ⟨(councilRanking_fallback 2 (some none)).2.1 (by decide),
   (councilRanking_fallback 2 (some none)).1.1,
   (councilRanking_fallback 2 (some none)).2.2.2.2.1 (by decide)⟩

/-! ## Session assembly of part_003 (lines 179-363) and part_004 (lines 171-243) -/

/-- Answer record pushed by the part_003 collection loop (lines 199-205). -/
structure Answer003 where
  label : String
  text : String
deriving DecidableEq

/-- The part_003 collection loop (lines 193-208): each member's call
result is kept only when truthy (`if (answer)`), i.e. a nonempty string. -/
def collect003 (results : List (String × Option String)) : List Answer003 :=
  results.filterMap (fun r =>
    match r.2 with
    | some s => if s = "" then none else some ⟨r.1, s⟩
    | none => none)

/-- A handler response: an error status+message, or a result payload. -/
inductive CouncilResp (π : Type)
  | failure (status : ℕ) (msg : String)
  | payload (p : π)
deriving DecidableEq

/-- The payload fields of the part_003 response relevant to the claims
(lines 344-356). -/
structure Payload003 where
  bestIndex : Option ℤ
  ranking : List (Option ℤ)
  rankingReason : String
  percentages : List ℤ
  avgConfidences : List ℚ
  final : String
  modelsUsed : List String
deriving DecidableEq

/-- `bestIndex` (part_003 lines 310-319): `rankingIndices[0]` when the
order is nonempty, else 1 + the argmax of the weighted scores. -/
def bestIndex003 (order : List (Option ℤ)) (pts : List ℚ) : Option ℤ :=
  match order.head? with
  | some e => e
  | none => some ((argmaxIdx pts : ℤ) + 1)

/-- `answers[bestIndex - 1] || answers[0]` (line 321); an out-of-range
or NaN index falls back to the first answer. -/
def bestAnswerOf (answers : List Answer003) (bi : Option ℤ) : Answer003 :=
  match bi with
  | some k => (answers.get? (k - 1).toNat).getD (answers.headD ⟨"", ""⟩)
  | none => answers.headD ⟨"", ""⟩

/-- The part_003 `/council` handler from the point where the answers
have been collected (lines 210-356): empty answers produce the 500
error; otherwise ranking parse/fallback/validation, scoring, and the
final text `finalAnswer || bestAnswer.text || "Final answer
unavailable."` (line 354) with `finalAnswer` the synthesis call result. -/
def council003 (answers : List Answer003) (raw : Option (Option ParseOutcome))
    (synth : Option String) : CouncilResp Payload003 :=
  if answers.length = 0 then .failure 500 "No models returned an answer."
  else
    let n := answers.length
    let order := (councilRanking n raw).1
    let conf := (councilRanking n raw).2.1
    let pts := points003 n order conf
    let bi := bestIndex003 order pts
    let bestAnswer := bestAnswerOf answers bi
    .payload ⟨bi, order, (councilRanking n raw).2.2, percentages003 pts,
      avgConf003 n order conf,
      jsOrStr synth (jsOrStr (some bestAnswer.text) "Final answer unavailable."),
      answers.map (fun a => a.label)⟩

/-- Payload extractor. -/
def respPayload {π : Type} : CouncilResp π → Option π
  | .payload p => some p
  | .failure _ _ => none

/-- `final` field of a part_003 response (empty string for an error). -/
def respFinal (r : CouncilResp Payload003) : String :=
  match r with
  | .payload p => p.final
  | .failure _ _ => ""

/-- `bestIndex` field of a part_003 response. -/
def respBestIndex (r : CouncilResp Payload003) : Option ℤ :=
  match r with
  | .payload p => p.bestIndex
  | .failure _ _ => none

/-- Length-derived confidence of part_004 (lines 197-199):
`Math.min(1, out.length / 800)`. -/
def weight004 (text : String) : ℚ := jsMin 1 ((text.length : ℚ) / 800)

/-- The part_004 response payload (lines 207-219 and 230-242). -/
structure Payload004 where
  chairman : String
  modelsUsed : List String
  bestIndex : ℕ
  bestModel : String
  ranking : List ℕ
  rankingReason : String
  percentages : List ℤ
  avgConfidences : List ℚ
  final : String
  transcripts : List (String × String)
deriving DecidableEq

/-- JavaScript `Math.max a b` on integers. -/
def intMax (a b : ℤ) : ℤ := if a ≤ b then b else a

/-- `Math.max(...l)` for a list of integers (part_004 line 226); the
empty case is unreachable behind the empty-answers check. -/
def listMaxZ (l : List ℤ) : ℤ :=
  match l with
  | [] => 0
  | h :: t => t.foldl intMax h

/-- The fixed payload part_004 returns when zero answers were collected
(lines 206-220). -/
def fallback004 : Payload004 :=
  ⟨"Groq • Llama-3.3 70B", [], 1, "Groq • Llama-3.3 70B", [1], "No models responded",
    [100], [1], "No answer could be generated.", []⟩

/-- The part_004 `/council` handler from the point where the answers
(with their length weights) have been collected (lines 205-242).  It
has no error branch at all: zero answers yield `fallback004`, otherwise
percentages are weights over their total, `bestIndex =
percentages.indexOf(Math.max(...percentages))` (0-based), and `final`
is the text of `answers[bestIndex]`. -/
def weights004 (answers : List (String × String)) : List ℚ :=
  answers.map (fun a => weight004 a.2)

/-- `const total = weights.reduce((a, b) => a + b, 0)` and
`percentages = weights.map(w => Math.round((w / total) * 100))`
(part_004 lines 223-224). -/
def pcts004 (answers : List (String × String)) : List ℤ :=
  (weights004 answers).map
    (fun w => jsRound (w / (weights004 answers).foldl (· + ·) 0 * 100))

/-- `bestIndex = percentages.indexOf(Math.max(...percentages))`
(part_004 line 226) — 0-based. -/
def bestIndex004 (answers : List (String × String)) : ℕ :=
  (pcts004 answers).indexOf (listMaxZ (pcts004 answers))

def council004 (answers : List (String × String)) : Payload004 :=
  if answers.length = 0 then fallback004
  else
    ⟨"Groq • Llama-3.3 70B", answers.map (fun a => a.1), bestIndex004 answers,
      ((answers.get? (bestIndex004 answers)).getD ("", "")).1,
      (List.range answers.length).map (fun i => i + 1), "Confidence-weighted voting",
      pcts004 answers, weights004 answers,
      ((answers.get? (bestIndex004 answers)).getD ("", "")).2, answers⟩

/-! ## src/server.js scoring tail (lines 325-334 and 343-377) -/

/-- The server.js review confidence coercion (lines 328-331): a
non-number confidence (modelled `none`) defaults to 0.5, a number is
clamped into [0,1]. -/
def reviewConfServer (c : Option ℚ) : ℚ :=
  match c with
  | some x => clamp01 x
  | none => 1/2

/-- `scores.reduce((a, b) => a + b, 0)`. -/
def totalScore (scores : List ℚ) : ℚ := scores.foldl (· + ·) 0

/-- The server.js percentages (lines 363-377): when the total score is
falsy every score is reset to 1 and the total recomputed, then each
percentage is `Math.round((s / totalScore) * 100)` — the denominator is
the SUM of the weighted scores, not their maximum. -/
def percentagesServer (scores : List ℚ) : List ℤ :=
  let scores2 := if totalScore scores = 0 then List.replicate scores.length (1 : ℚ) else scores
  let total2 := totalScore scores2
  scores2.map (fun s => if total2 = 0 then 0 else jsRound (s / total2 * 100))

/-- `Math.max(...l)` over rationals. -/
def listMaxQ (l : List ℚ) : ℚ :=
  match l with
  | [] => 0
  | h :: t => t.foldl jsMax h

/-- Follows the words of the spec (§4.5) for comparison with the code:
percentage for answer k = round(100 * weightedScore / maxScore) where
maxScore is the largest weighted score in the table (0 if all scores
are 0, to avoid division by zero). -/
def specPercentages (l : List ℚ) : List ℤ :=
  l.map (fun w => if listMaxQ l = 0 then 0 else jsRound (100 * w / listMaxQ l))

/-- Follows the words of claim C10 for comparison with the code: the
0-based position of the first answer whose length-derived weight is
maximal. -/
def specFirstArgmax (l : List ℚ) : ℕ := l.indexOf (listMaxQ l)

/-- Scenario A parse outcome: order `[2, 1, 3]`, confidences
`[0.9, 0.6, 0.3]`. -/
def rawA : Option (Option ParseOutcome) :=
  some (some ⟨some [some 2, some 1, some 3],
    some [some (9/10), some (6/10), some (3/10)], some "clear and accurate"⟩)

/-- Concrete three collected answers. -/
def answersA : List Answer003 := [⟨"m1", "t1"⟩, ⟨"m2", "t2"⟩, ⟨"m3", "t3"⟩]

/-- C2: for 3 collected answers with ranking order [2,1,3] and
per-position confidences [0.9,0.6,0.3], the scorer yields weighted
scores [1.2, 2.7, 0.3], percentages [44, 100, 11], and bestIndex = 2. -/
theorem scoring_scenarioA :
    points003 3 (councilRanking 3 rawA).1 (councilRanking 3 rawA).2.1 =
      [6/5, 27/10, 3/10] ∧
    percentages003 (points003 3 (councilRanking 3 rawA).1 (councilRanking 3 rawA).2.1) =
      [44, 100, 11] ∧
    (respPayload (council003 answersA rawA (some "synthesized"))).map
      (fun p => (p.bestIndex, p.percentages)) = some (some 2, [44, 100, 11]) := by
  apply of_decide_eq_true
  with_unfolding_all rfl

/-- C3 counterexample: with zero collected answers the part_004 handler
does NOT report a failure — it returns a fully-formed fabricated result
payload naming the chairman as bestModel, with percentages [100] and a
placeholder final text, while modelsUsed is empty. -/
theorem council004_empty_counterexample :
    council004 [] = fallback004 ∧
    fallback004.modelsUsed = [] ∧
    fallback004.bestModel = "Groq • Llama-3.3 70B" ∧
    fallback004.percentages = [100] ∧
    fallback004.final = "No answer could be generated." ∧
    fallback004.rankingReason = "No models responded" := by
  refine ⟨rfl, rfl, rfl, rfl, rfl, rfl⟩

/-- C3 amended: when zero members produce an answer, neither variant
proceeds to ranking, scoring or synthesis (the part_003 result is
independent of the parse outcome and the synthesis result); the
part_003 handler reports the distinguishable 500 error "No models
returned an answer.", but the part_004 handler instead returns the
fixed fabricated fallback payload. -/
theorem emptyRoster_behavior (raw : Option (Option ParseOutcome)) (synth : Option String) :
    council003 [] raw synth =
      CouncilResp.failure 500 "No models returned an answer." ∧
    council004 [] = fallback004 :=
  ⟨rfl, rfl⟩

/-- C3 amended witness. -/
theorem emptyRoster_behavior_witness :
    council003 [] none none = CouncilResp.failure 500 "No models returned an answer." :=
  (emptyRoster_behavior none none).1

theorem clamp01_nonneg (x : ℚ) : 0 ≤ clamp01 x := by
  unfold clamp01 jsMax jsMin
  split_ifs <;> linarith

theorem clamp01_le_one (x : ℚ) : clamp01 x ≤ 1 := by
  unfold clamp01 jsMax jsMin
  split_ifs <;> linarith

theorem clamp01_of_mem (x : ℚ) (h0 : 0 ≤ x) (h1 : x ≤ 1) : clamp01 x = x := by
  unfold clamp01 jsMax jsMin
  split_ifs <;> linarith

/-- C9 counterexample: in the server.js jury variant, a confidence that
is not a number is defaulted to 0.5 — strictly below the 1.0 the claim
requires as the fail-open default. -/
theorem reviewConfServer_counterexample :
    reviewConfServer none = 1/2 ∧
    reviewConfServer none ≠ 1 ∧
    reviewConfServer none < 1 := by
  apply of_decide_eq_true
  with_unfolding_all rfl

/-- C9 amended: in the part_003 arbitrator parse, a confidence entry
whose numeric coercion fails (NaN) defaults to 1.0 and every coerced
entry is clamped into [0,1] (an in-range value is kept exactly); the
server.js jury variant, however, defaults a non-number confidence to
0.5, a lower default. -/
theorem coerceConf_spec (v : Option ℚ) :
    (v = none → coerceConf v = 1) ∧
    0 ≤ coerceConf v ∧
    coerceConf v ≤ 1 ∧
    (∀ x : ℚ, v = some x → 0 ≤ x → x ≤ 1 → coerceConf v = x) ∧
    reviewConfServer none = 1/2 := by
  refine ⟨?_, ?_, ?_, ?_, rfl⟩
  · intro hv
    subst hv
    rfl
  · cases v with
    | none => norm_num [coerceConf]
    | some y => exact clamp01_nonneg y
  · cases v with
    | none => norm_num [coerceConf]
    | some y => exact clamp01_le_one y
  · intro x hx h0 h1
    subst hx
    exact clamp01_of_mem x h0 h1

/-- C9 amended witness: a NaN entry is scored as 1.0, and an in-range
entry 0.3 is kept exactly. -/
theorem coerceConf_spec_witness :
    coerceConf none = 1 ∧ coerceConf (some (3/10)) = 3/10 :=
  ⟨(coerceConf_spec none).1 rfl,
   (coerceConf_spec (some (3/10))).2.2.2.1 (3/10) rfl (by norm_num) (by norm_num)⟩

theorem jsRound_nonneg (q : ℚ) (h : 0 ≤ q) : 0 ≤ jsRound q :=
  Int.le_floor.mpr (by push_cast; linarith)

theorem jsRound_le_hundred (q : ℚ) (h : q ≤ 100) : jsRound q ≤ 100 := by
  have hlt : ⌊q + 1/2⌋ < 101 := Int.floor_lt.mpr (by push_cast; linarith)
  unfold jsRound
  omega

theorem step_eq_jsMax (m v : ℚ) : (if v > m then v else m) = jsMax m v := by
  unfold jsMax
  split_ifs <;> linarith

theorem maxPoints_eq_foldl_jsMax (l : List ℚ) : maxPoints l = l.foldl jsMax 0 := by
  unfold maxPoints
  congr 1
  funext m v
  exact step_eq_jsMax m v

theorem foldl_jsMax_acc_le (l : List ℚ) : ∀ acc, acc ≤ l.foldl jsMax acc := by
  induction l with
  | nil => intro acc; exact le_rfl
  | cons h t ih =>
    intro acc
    refine le_trans ?_ (ih (jsMax acc h))
    unfold jsMax
    split_ifs <;> linarith

theorem foldl_jsMax_le_of_mem (l : List ℚ) :
    ∀ (x acc : ℚ), x ∈ l → x ≤ l.foldl jsMax acc := by
  induction l with
  | nil =>
    intro x acc hx
    simp at hx
  | cons h t ih =>
    intro x acc hx
    rcases List.mem_cons.mp hx with rfl | hx2
    · refine le_trans ?_ (foldl_jsMax_acc_le t (jsMax acc x))
      unfold jsMax
      split_ifs <;> linarith
    · exact ih x (jsMax acc h) hx2

theorem maxPoints_nonneg (l : List ℚ) : 0 ≤ maxPoints l := by
  rw [maxPoints_eq_foldl_jsMax]
  exact foldl_jsMax_acc_le l 0

theorem le_maxPoints_of_mem {l : List ℚ} {x : ℚ} (hx : x ∈ l) : x ≤ maxPoints l := by
  rw [maxPoints_eq_foldl_jsMax]
  exact foldl_jsMax_le_of_mem l x 0 hx

theorem maxPoints_eq_listMaxQ (l : List ℚ) (hl : ∀ v ∈ l, 0 ≤ v) :
    maxPoints l = listMaxQ l := by
  cases l with
  | nil => rfl
  | cons h t =>
    rw [maxPoints_eq_foldl_jsMax]
    have h0 : jsMax 0 h = h := by
      unfold jsMax
      rw [if_pos (hl h (List.mem_cons_self h t))]
    simp only [List.foldl_cons, listMaxQ, h0]

/-- C7 counterexample: the server.js variant divides by the TOTAL of
the weighted scores, not their maximum: for the score table [1, 1] it
returns [50, 50] where the claimed formula gives [100, 100]. -/
theorem percentagesServer_counterexample :
    percentagesServer [1, 1] = [50, 50] ∧
    specPercentages [1, 1] = [100, 100] ∧
    percentagesServer [1, 1] ≠ specPercentages [1, 1] := by
  apply of_decide_eq_true
  with_unfolding_all rfl

/-- C7 amended: for every score table of nonnegative weighted scores,
the part_003 percentages equal round(100 * score / maxScore) with 0
when all scores are 0, and every percentage lies in 0..100; the
server.js variant instead divides by the total score
(see the counterexample). -/
theorem percentages003_spec (l : List ℚ) (hl : ∀ v ∈ l, 0 ≤ v) :
    percentages003 l = specPercentages l ∧
    ∀ p ∈ percentages003 l, 0 ≤ p ∧ p ≤ 100 := by
  have hM := maxPoints_eq_listMaxQ l hl
  have hMnn := maxPoints_nonneg l
  constructor
  · unfold percentages003 specPercentages
    refine List.map_congr_left ?_
    intro v _
    by_cases hz : maxPoints l ≤ 0
    · have h0 : maxPoints l = 0 := le_antisymm hz hMnn
      rw [if_pos hz, if_pos (by rw [← hM]; exact h0)]
    · have hpos : 0 < maxPoints l := not_le.mp hz
      have hz2 : ¬ listMaxQ l = 0 := by
        rw [← hM]
        intro hc
        rw [hc] at hpos
        exact lt_irrefl 0 hpos
      rw [if_neg hz, if_neg hz2, ← hM]
      congr 1
      ring
  · intro p hp
    rcases List.mem_map.mp hp with ⟨v, hv, rfl⟩
    by_cases hz : maxPoints l ≤ 0
    · rw [if_pos hz]
      exact ⟨le_rfl, by norm_num⟩
    · have hpos : 0 < maxPoints l := not_le.mp hz
      rw [if_neg hz]
      have hv0 : 0 ≤ v := hl v hv
      have hvM : v ≤ maxPoints l := le_maxPoints_of_mem hv
      have h1 : 0 ≤ v / maxPoints l * 100 := by positivity
      have h2 : v / maxPoints l * 100 ≤ 100 := by
        have hdiv : v / maxPoints l ≤ 1 := (div_le_one hpos).mpr hvM
        linarith
      exact ⟨jsRound_nonneg _ h1, jsRound_le_hundred _ h2⟩

/-- C7 amended witness: a concrete nonnegative score table. -/
theorem percentages003_spec_witness :
    percentages003 [1/2, 1] = specPercentages [1/2, 1] ∧
    percentages003 [1/2, 1] = [50, 100] :=
  ⟨(percentages003_spec [1/2, 1]
      (by apply of_decide_eq_true; with_unfolding_all rfl)).1,
   by apply of_decide_eq_true; with_unfolding_all rfl⟩

theorem councilOrder_length (n : ℕ) (l : List (Option ℤ)) :
    (councilOrder n l).length = n := by
  rw [councilOrder_eq]
  split_ifs with hcond
  · exact hcond.1
  · exact idOrder_length n

theorem councilOrder_mem (n : ℕ) (l : List (Option ℤ)) :
    ∀ x ∈ councilOrder n l, ∃ k : ℤ, x = some k ∧ 1 ≤ k ∧ k ≤ n := by
  rw [councilOrder_eq]
  split_ifs with hcond
  · exact mem_of_permCheck n l hcond.2.2
  · intro x hx
    exact mem_idOrder.mp hx

theorem collect003_text_ne (rs : List (String × Option String)) :
    ∀ a ∈ collect003 rs, a.text ≠ "" := by
  intro a ha
  rcases List.mem_filterMap.mp ha with ⟨r, _, heq⟩
  rcases hr2 : r.2 with _ | s
  · rw [hr2] at heq
    cases heq
  · rw [hr2] at heq
    have heq2 : (if s = "" then none else some (⟨r.1, s⟩ : Answer003)) = some a := heq
    by_cases hs : s = ""
    · rw [if_pos hs] at heq2
      cases heq2
    · rw [if_neg hs] at heq2
      cases heq2
      exact hs

/-- C8: whenever the synthesis call returns null and at least one
answer was collected, the part_003 response is a payload whose
bestIndex lies in 1..N and whose `final` field equals, verbatim, the
text of the answer at bestIndex — never empty, since every collected
answer has nonempty text. -/
theorem council003_synthesis_fallback (rs : List (String × Option String))
    (raw : Option (Option ParseOutcome)) (h : collect003 rs ≠ []) :
    (respBestIndex (council003 (collect003 rs) raw none)).isSome = true ∧
    1 ≤ (respBestIndex (council003 (collect003 rs) raw none)).getD 0 ∧
    (respBestIndex (council003 (collect003 rs) raw none)).getD 0 ≤
      ((collect003 rs).length : ℤ) ∧
    respFinal (council003 (collect003 rs) raw none) =
      (((collect003 rs).get?
          (((respBestIndex (council003 (collect003 rs) raw none)).getD 0 - 1).toNat)).getD
        ⟨"", ""⟩).text ∧
    respFinal (council003 (collect003 rs) raw none) ≠ "" := by
  have hn : (collect003 rs).length ≠ 0 := fun hc => h (List.length_eq_zero.mp hc)
  simp only [council003]
  rw [if_neg hn]
  simp only [respBestIndex, respFinal]
  have horder_len : ((councilRanking (collect003 rs).length raw).1).length =
      (collect003 rs).length :=
    councilOrder_length (collect003 rs).length (parsedIdx raw)
  have horder_ne : (councilRanking (collect003 rs).length raw).1 ≠ [] := by
    intro hc
    rw [hc] at horder_len
    exact hn horder_len.symm
  obtain ⟨e, rest, he⟩ := List.exists_cons_of_ne_nil horder_ne
  have hee : e ∈ (councilRanking (collect003 rs).length raw).1 := by
    rw [he]
    exact List.mem_cons_self e rest
  obtain ⟨k, hek, hk1, hk2⟩ := councilOrder_mem (collect003 rs).length (parsedIdx raw) e hee
  have hbi : bestIndex003 (councilRanking (collect003 rs).length raw).1
      (points003 (collect003 rs).length (councilRanking (collect003 rs).length raw).1
        (councilRanking (collect003 rs).length raw).2.1) = some k := by
    rw [he, ← hek]
    rfl
  rw [hbi]
  have hlt : (k - 1).toNat < (collect003 rs).length := by omega
  have hget : (collect003 rs).get? (k - 1).toNat =
      some ((collect003 rs).get ⟨(k - 1).toNat, hlt⟩) := List.get?_eq_get hlt
  have hane : ((collect003 rs).get ⟨(k - 1).toNat, hlt⟩).text ≠ "" :=
    collect003_text_ne rs _ (List.get_mem _ _ _)
  refine ⟨rfl, by simpa using hk1, by simpa using hk2, ?_, ?_⟩
  · simp only [Option.getD_some, bestAnswerOf, hget, jsOrStr]
    rw [if_neg hane]
  · simp only [Option.getD_some, bestAnswerOf, hget, jsOrStr]
    rw [if_neg hane]
    exact hane

/-- C8 witness: one collected answer "hello", synthesis null — the
final text is "hello" verbatim, nonempty. -/
theorem council003_synthesis_fallback_witness :
    respFinal (council003 (collect003 [("m", some "hello")]) none none) = "hello" ∧
    respFinal (council003 (collect003 [("m", some "hello")]) none none) ≠ "" := by
  have hne : collect003 [("m", some "hello")] ≠ [] := by
    apply of_decide_eq_true
    with_unfolding_all rfl
  have hmain := council003_synthesis_fallback [("m", some "hello")] none hne
  refine ⟨?_, hmain.2.2.2.2⟩
  rw [hmain.2.2.2.1]
  apply of_decide_eq_true
  with_unfolding_all rfl

theorem foldl_intMax_mem (t : List ℤ) : ∀ h : ℤ, t.foldl intMax h = h ∨ t.foldl intMax h ∈ t := by
  induction t with
  | nil =>
    intro h
    left
    rfl
  | cons a t ih =>
    intro h
    rw [List.foldl_cons]
    rcases ih (intMax h a) with hcase | hcase
    · rw [hcase]
      unfold intMax
      split_ifs
      · right
        exact List.mem_cons_self a t
      · left
        rfl
    · right
      exact List.mem_cons_of_mem a hcase

theorem listMaxZ_mem {l : List ℤ} (h : l ≠ []) : listMaxZ l ∈ l := by
  cases l with
  | nil => exact absurd rfl h
  | cons a t =>
    show t.foldl intMax a ∈ a :: t
    rcases foldl_intMax_mem t a with hcase | hcase
    · rw [hcase]
      exact List.mem_cons_self a t
    · exact List.mem_cons_of_mem a hcase

theorem foldl_intMax_acc_le (t : List ℤ) : ∀ acc : ℤ, acc ≤ t.foldl intMax acc := by
  induction t with
  | nil =>
    intro acc
    exact le_rfl
  | cons a t ih =>
    intro acc
    rw [List.foldl_cons]
    refine le_trans ?_ (ih (intMax acc a))
    unfold intMax
    split_ifs <;> omega

theorem foldl_intMax_le_of_mem (t : List ℤ) :
    ∀ (x acc : ℤ), x ∈ t → x ≤ t.foldl intMax acc := by
  induction t with
  | nil =>
    intro x acc hx
    simp at hx
  | cons a t ih =>
    intro x acc hx
    rw [List.foldl_cons]
    rcases List.mem_cons.mp hx with rfl | hx2
    · refine le_trans ?_ (foldl_intMax_acc_le t (intMax acc x))
      unfold intMax
      split_ifs <;> omega
    · exact ih x (intMax acc a) hx2

theorem le_listMaxZ_of_mem {l : List ℤ} {x : ℤ} (hx : x ∈ l) : x ≤ listMaxZ l := by
  cases l with
  | nil => simp at hx
  | cons a t =>
    show x ≤ t.foldl intMax a
    rcases List.mem_cons.mp hx with rfl | hx2
    · exact foldl_intMax_acc_le t x
    · exact foldl_intMax_le_of_mem t x a hx2

theorem get?_ne_of_lt_indexOf {α : Type} [DecidableEq α] :
    ∀ (l : List α) (a : α) (j : ℕ), j < List.indexOf a l → l.get? j ≠ some a := by
  intro l
  induction l with
  | nil =>
    intro a j hj hc
    simp at hc
  | cons b t ih =>
    intro a j hj
    by_cases hba : b = a
    · rw [List.indexOf_cons_eq t hba] at hj
      omega
    · rw [List.indexOf_cons_ne t hba] at hj
      cases j with
      | zero =>
        intro hc
        simp only [List.get?] at hc
        cases hc
        exact hba rfl
      | succ j =>
        have := ih a j (by omega)
        simpa [List.get?] using this

/-- A 50-character answer text. -/
def ansA50 : String := String.mk (List.replicate 50 'x')

/-- A 51-character answer text. -/
def ansB51 : String := String.mk (List.replicate 51 'y')

/-- Two collected answers of lengths 50 and 51. -/
def answersLen : List (String × String) := [("m1", ansA50), ("m2", ansB51)]

set_option maxRecDepth 20000 in
/-- C10 counterexample: for answers of lengths 50 and 51, the
length-derived weights are [50/800, 51/800] — strictly maximal at index
1 — yet both rounded percentages are 50, so
`percentages.indexOf(Math.max(...))` picks index 0.  The returned
bestIndex is the first argmax of the ROUNDED percentages, not of the
length-derived weights. -/
theorem council004_bestIndex_counterexample :
    weights004 answersLen = [50/800, 51/800] ∧
    (council004 answersLen).percentages = [50, 50] ∧
    (council004 answersLen).bestIndex = 0 ∧
    specFirstArgmax (weights004 answersLen) = 1 ∧
    (council004 answersLen).bestIndex ≠ specFirstArgmax (weights004 answersLen) := by
  apply of_decide_eq_true
  with_unfolding_all rfl

/-- C10 amended: in the length-weighted part_004 variant, when at least
one answer is collected, `ranking` is the identity sequence [1..N],
`final` is verbatim the text of the answer at `bestIndex`, and
`bestIndex` is 0-based: it is in range, the percentage at `bestIndex`
is the maximal ROUNDED percentage, and every earlier percentage is
strictly smaller — it is the first argmax of the rounded percentages
derived from the weights min(1, length/800), not of the weights
themselves (see the counterexample). -/
theorem council004_spec (answers : List (String × String)) (h : answers ≠ []) :
    (council004 answers).ranking = (List.range answers.length).map (fun i => i + 1) ∧
    (council004 answers).bestIndex < answers.length ∧
    (council004 answers).final =
      ((answers.get? (council004 answers).bestIndex).getD ("", "")).2 ∧
    (council004 answers).percentages.get? (council004 answers).bestIndex =
      some (listMaxZ (council004 answers).percentages) ∧
    (∀ j x, j < (council004 answers).bestIndex →
      (council004 answers).percentages.get? j = some x →
      x < listMaxZ (council004 answers).percentages) := by
  have hn : answers.length ≠ 0 := fun hc => h (List.length_eq_zero.mp hc)
  have hcouncil : council004 answers = ⟨"Groq • Llama-3.3 70B", answers.map (fun a => a.1),
      bestIndex004 answers, ((answers.get? (bestIndex004 answers)).getD ("", "")).1,
      (List.range answers.length).map (fun i => i + 1), "Confidence-weighted voting",
      pcts004 answers, weights004 answers,
      ((answers.get? (bestIndex004 answers)).getD ("", "")).2, answers⟩ := by
    unfold council004
    rw [if_neg hn]
  rw [hcouncil]
  have hplen : (pcts004 answers).length = answers.length := by
    unfold pcts004 weights004
    rw [List.length_map, List.length_map]
  have hpne : pcts004 answers ≠ [] := by
    intro hc
    rw [hc] at hplen
    exact hn hplen.symm
  have hmax_mem : listMaxZ (pcts004 answers) ∈ pcts004 answers := listMaxZ_mem hpne
  have hbi_lt : bestIndex004 answers < (pcts004 answers).length := by
    unfold bestIndex004
    exact List.indexOf_lt_length.mpr hmax_mem
  refine ⟨rfl, ?_, rfl, ?_, ?_⟩
  · show bestIndex004 answers < answers.length
    rw [← hplen]
    exact hbi_lt
  · show (pcts004 answers).get? (bestIndex004 answers) = some (listMaxZ (pcts004 answers))
    unfold bestIndex004
    exact List.indexOf_get? hmax_mem
  · intro j x hj hx
    have hj2 : j < bestIndex004 answers := hj
    have hx2 : (pcts004 answers).get? j = some x := hx
    have hxmem : x ∈ pcts004 answers := List.get?_mem hx2
    have hxle : x ≤ listMaxZ (pcts004 answers) := le_listMaxZ_of_mem hxmem
    have hxne : x ≠ listMaxZ (pcts004 answers) := by
      intro hc
      subst hc
      exact get?_ne_of_lt_indexOf (pcts004 answers) (listMaxZ (pcts004 answers)) j hj2 hx2
    show x < listMaxZ (pcts004 answers)
    omega

/-- C10 amended witness: a single collected answer. -/
theorem council004_spec_witness :
    (council004 [("m", "hi")]).ranking = [1] ∧
    (council004 [("m", "hi")]).bestIndex < 1 ∧
    (council004 [("m", "hi")]).final = "hi" := by
  have hmain := council004_spec [("m", "hi")] (by simp)
  refine ⟨?_, ?_, ?_⟩
  · rw [hmain.1]
    rfl
  · exact hmain.2.1
  · rw [hmain.2.2.1]
    apply of_decide_eq_true
    with_unfolding_all rfl
